import Mathlib

/-!
# MQTT packet codec, client state machine and bounded event queue

A shallow embedding of the MQTT 3.1.1 packet codec (`src/libs/mqtt/src/packet.rs`),
the client protocol state machine (`src/libs/mqtt/src/client.rs`), and the CCR
application event model with its bounded circular queue (`src/apps/ccr/src/events.rs`).

Rust `u8` byte buffers are embedded as `List Nat` whose entries lie below 256;
Rust `String` / `&str` values at the wire level are their UTF-8 byte lists, and at
the JSON/event level are `List Char`.  Bit operations of the source are translated
to the arithmetic they compute on the `u8` domain (`x & 0x7F` is `x % 128`,
`x >> 4` is `x / 16`, `x & 0x80 == 0` is `x / 128 % 2 == 0`, `as u8` is `% 256`).
Fallible Rust code returns `Except`/`Option`; a potential Rust panic is an
explicit `.error ()` value of `Except Unit`.
-/

set_option maxHeartbeats 1000000
set_option maxRecDepth 10000

namespace Mqtt

/-- MQTT packet types (`PacketType` in packet.rs). -/
inductive PacketType where
  | Connect
  | Connack
  | Publish
  | Puback
  | Pubrec
  | Pubrel
  | Pubcomp
  | Subscribe
  | Suback
  | Unsubscribe
  | Unsuback
  | Pingreq
  | Pingresp
  | Disconnect
deriving DecidableEq, Repr

/-- `PacketType::from_byte`: dispatch on the high nibble `byte >> 4`. -/
def PacketType.from_byte (b : Nat) : Option PacketType :=
  match b / 16 with
  | 1 => some .Connect
  | 2 => some .Connack
  | 3 => some .Publish
  | 4 => some .Puback
  | 5 => some .Pubrec
  | 6 => some .Pubrel
  | 7 => some .Pubcomp
  | 8 => some .Subscribe
  | 9 => some .Suback
  | 10 => some .Unsubscribe
  | 11 => some .Unsuback
  | 12 => some .Pingreq
  | 13 => some .Pingresp
  | 14 => some .Disconnect
  | _ => none

/-- Quality of service levels (`QoS` in packet.rs). -/
inductive QoS where
  | AtMostOnce
  | AtLeastOnce
  | ExactlyOnce
deriving DecidableEq, Repr

/-- The `repr(u8)` discriminant of a `QoS` value (`qos as u8`). -/
def QoS.toNat : QoS → Nat
  | .AtMostOnce => 0
  | .AtLeastOnce => 1
  | .ExactlyOnce => 2

/-- `QoS::from_byte`: dispatch on `byte & 0x03`. -/
def QoS.from_byte (b : Nat) : Option QoS :=
  match b % 4 with
  | 0 => some .AtMostOnce
  | 1 => some .AtLeastOnce
  | 2 => some .ExactlyOnce
  | _ => none

/-- CONNACK return codes (`ConnackCode` in packet.rs). -/
inductive ConnackCode where
  | Accepted
  | UnacceptableProtocol
  | IdentifierRejected
  | ServerUnavailable
  | BadCredentials
  | NotAuthorized
deriving DecidableEq, Repr

/-- The `repr(u8)` discriminant of a `ConnackCode` (`code as u8`). -/
def ConnackCode.toNat : ConnackCode → Nat
  | .Accepted => 0
  | .UnacceptableProtocol => 1
  | .IdentifierRejected => 2
  | .ServerUnavailable => 3
  | .BadCredentials => 4
  | .NotAuthorized => 5

/-- `ConnackCode::from_byte`. -/
def ConnackCode.from_byte (b : Nat) : Option ConnackCode :=
  match b with
  | 0 => some .Accepted
  | 1 => some .UnacceptableProtocol
  | 2 => some .IdentifierRejected
  | 3 => some .ServerUnavailable
  | 4 => some .BadCredentials
  | 5 => some .NotAuthorized
  | _ => none

/-- `encode_remaining_length`: the source's push loop, written as recursion on
`len >> 7`.  Each step pushes `len & 0x7F`, with `0x80` or-ed in (here: added,
the low seven bits being disjoint from bit 7) when more bytes follow. -/
def encode_remaining_length (len : Nat) : List Nat :=
  if h : len / 128 = 0 then
    [len % 128]
  else
    (len % 128 + 128) :: encode_remaining_length (len / 128)
decreasing_by
  exact Nat.div_lt_self (Nat.pos_of_ne_zero (fun h0 => h (by simp [h0]))) (by omega)

/-- Loop body of `decode_remaining_length`; `fuel` models `iter().take(4)`.
`b & 0x7F` is `b % 128`; `(b & 0x80) == 0` is `b / 128 % 2 == 0`. -/
def decode_remaining_length_aux : Nat → List Nat → Nat → Nat → Nat → Option (Nat × Nat)
  | 0, _, _, _, _ => none
  | _ + 1, [], _, _, _ => none
  | fuel + 1, b :: rest, len, multiplier, consumed =>
    if b / 128 % 2 = 0 then
      some (len + b % 128 * multiplier, consumed + 1)
    else
      decode_remaining_length_aux fuel rest (len + b % 128 * multiplier)
        (multiplier * 128) (consumed + 1)

/-- `decode_remaining_length`: reads up to 4 continuation-bit bytes, returning
`(length, bytes_consumed)`. -/
def decode_remaining_length (data : List Nat) : Option (Nat × Nat) :=
  decode_remaining_length_aux 4 data 0 1 0

/-- `encode_string`: big-endian 16-bit length (`(len >> 8) as u8`, `len & 0xFF`)
followed by the string's UTF-8 bytes. -/
def encode_string (s : List Nat) : List Nat :=
  s.length / 256 % 256 :: s.length % 256 :: s

/-- `encode_bytes`: identical layout for raw byte data. -/
def encode_bytes (d : List Nat) : List Nat :=
  d.length / 256 % 256 :: d.length % 256 :: d

/-- Parse errors (`ParseError` in packet.rs). -/
inductive ParseError where
  | Incomplete
  | InvalidFormat
  | UnknownType
  | InvalidUtf8
deriving DecidableEq, Repr

/-- UTF-8 validity of a byte sequence, the check performed by
`core::str::from_utf8` in `decode_string`.  Standard table: ASCII, then
2/3/4-byte sequences with the overlong/surrogate/out-of-range exclusions. -/
def utf8_valid : List Nat → Bool
  | [] => true
  | b :: rest =>
    if b < 0x80 then utf8_valid rest
    else if b < 0xC2 then false
    else if b < 0xE0 then
      match rest with
      | c1 :: rest' => 0x80 ≤ c1 && c1 < 0xC0 && utf8_valid rest'
      | _ => false
    else if b < 0xF0 then
      match rest with
      | c1 :: c2 :: rest' =>
        (if b = 0xE0 then 0xA0 ≤ c1 && c1 < 0xC0
         else if b = 0xED then 0x80 ≤ c1 && c1 < 0xA0
         else 0x80 ≤ c1 && c1 < 0xC0) &&
        (0x80 ≤ c2 && c2 < 0xC0) && utf8_valid rest'
      | _ => false
    else if b < 0xF5 then
      match rest with
      | c1 :: c2 :: c3 :: rest' =>
        (if b = 0xF0 then 0x90 ≤ c1 && c1 < 0xC0
         else if b = 0xF4 then 0x80 ≤ c1 && c1 < 0x90
         else 0x80 ≤ c1 && c1 < 0xC0) &&
        (0x80 ≤ c2 && c2 < 0xC0) && (0x80 ≤ c3 && c3 < 0xC0) && utf8_valid rest'
      | _ => false
    else false

/-- `decode_string`: 16-bit big-endian length prefix, length check, UTF-8
validation; returns the string's bytes and the bytes consumed (`2 + len`). -/
def decode_string (data : List Nat) : Except ParseError (List Nat × Nat) :=
  match data with
  | d0 :: d1 :: rest =>
    let len := d0 * 256 + d1
    if rest.length < len then .error .Incomplete
    else
      let s := rest.take len
      if utf8_valid s then .ok (s, 2 + len) else .error .InvalidUtf8
  | _ => .error .Incomplete

/-- Parsed MQTT packets (`Packet` in packet.rs). -/
inductive Packet where
  | Connack (session_present : Bool) (code : ConnackCode)
  | Publish (topic : List Nat) (payload : List Nat) (qos : QoS)
      (packet_id : Option Nat) (retain : Bool) (dup : Bool)
  | Puback (packet_id : Nat)
  | Pubrec (packet_id : Nat)
  | Pubrel (packet_id : Nat)
  | Pubcomp (packet_id : Nat)
  | Suback (packet_id : Nat) (return_codes : List Nat)
  | Unsuback (packet_id : Nat)
  | Pingresp
deriving DecidableEq, Repr

/-- `parse_connack`. -/
def parse_connack (data : List Nat) : Except ParseError Packet :=
  match data with
  | d0 :: d1 :: _ =>
    match ConnackCode.from_byte d1 with
    | some code => .ok (.Connack (d0 % 2 = 1) code)
    | none => .error .InvalidFormat
  | _ => .error .InvalidFormat

/-- `parse_publish`: flags from the first byte (`dup` bit 3, QoS bits 2:1,
`retain` bit 0), length-prefixed topic, 16-bit packet id only when QoS is not
`AtMostOnce`, remaining bytes verbatim as payload. -/
def parse_publish (first : Nat) (data : List Nat) : Except ParseError Packet :=
  let dup := first / 8 % 2 = 1
  match QoS.from_byte (first / 2 % 4) with
  | none => .error .InvalidFormat
  | some qos =>
    let retain := first % 2 = 1
    match decode_string data with
    | .error e => .error e
    | .ok (topic, topic_len) =>
      let rest := data.drop topic_len
      if qos = .AtMostOnce then
        .ok (.Publish topic rest qos none retain dup)
      else
        match rest with
        | b0 :: b1 :: rest' =>
          .ok (.Publish topic rest' qos (some (b0 * 256 + b1)) retain dup)
        | _ => .error .Incomplete

/-- `parse_puback`. -/
def parse_puback (data : List Nat) : Except ParseError Packet :=
  match data with
  | d0 :: d1 :: _ => .ok (.Puback (d0 * 256 + d1))
  | _ => .error .InvalidFormat

/-- `parse_pubrec`. -/
def parse_pubrec (data : List Nat) : Except ParseError Packet :=
  match data with
  | d0 :: d1 :: _ => .ok (.Pubrec (d0 * 256 + d1))
  | _ => .error .InvalidFormat

/-- `parse_pubrel`. -/
def parse_pubrel (data : List Nat) : Except ParseError Packet :=
  match data with
  | d0 :: d1 :: _ => .ok (.Pubrel (d0 * 256 + d1))
  | _ => .error .InvalidFormat

/-- `parse_pubcomp`. -/
def parse_pubcomp (data : List Nat) : Except ParseError Packet :=
  match data with
  | d0 :: d1 :: _ => .ok (.Pubcomp (d0 * 256 + d1))
  | _ => .error .InvalidFormat

/-- `parse_suback`: packet id plus at least one return-code byte. -/
def parse_suback (data : List Nat) : Except ParseError Packet :=
  match data with
  | d0 :: d1 :: rest =>
    if rest.length = 0 then .error .InvalidFormat
    else .ok (.Suback (d0 * 256 + d1) rest)
  | _ => .error .InvalidFormat

/-- `parse_unsuback`. -/
def parse_unsuback (data : List Nat) : Except ParseError Packet :=
  match data with
  | d0 :: d1 :: _ => .ok (.Unsuback (d0 * 256 + d1))
  | _ => .error .InvalidFormat

/-- The `match packet_type` dispatch inside `parse_packet`; the fall-through
arm rejects the outbound-only packet types with `UnknownType`. -/
def parse_body (ptype : PacketType) (first : Nat) (payload : List Nat) :
    Except ParseError Packet :=
  match ptype with
  | .Connack => parse_connack payload
  | .Publish => parse_publish first payload
  | .Puback => parse_puback payload
  | .Pubrec => parse_pubrec payload
  | .Pubrel => parse_pubrel payload
  | .Pubcomp => parse_pubcomp payload
  | .Suback => parse_suback payload
  | .Unsuback => parse_unsuback payload
  | .Pingresp => .ok .Pingresp
  | _ => .error .UnknownType

/-- `parse_packet`: fixed header byte, remaining length, completeness check,
then dispatch on the `remaining_length`-bounded slice
`data[header_len..total_len]`; returns the packet and `total_len` consumed.
On `first :: tail`, the source's `&data[1..]` is `tail`, `data.len()` is
`1 + tail.length`, and `&data[header_len..total_len]` is
`(tail.drop len_bytes).take remaining_len`. -/
def parse_packet (data : List Nat) : Except ParseError (Packet × Nat) :=
  match data with
  | [] => .error .Incomplete
  | first :: tail =>
    match PacketType.from_byte first with
    | none => .error .UnknownType
    | some ptype =>
      match decode_remaining_length tail with
      | none => .error .Incomplete
      | some (remaining_len, len_bytes) =>
        if 1 + tail.length < 1 + len_bytes + remaining_len then .error .Incomplete
        else
          match parse_body ptype first ((tail.drop len_bytes).take remaining_len) with
          | .error e => .error e
          | .ok packet => .ok (packet, 1 + len_bytes + remaining_len)

/-- `build_connect_with_options`: protocol name/level, connect-flags byte,
keep-alive, then client id, optional username, optional password. -/
def build_connect_with_options (client_id : List Nat) (username : Option (List Nat))
    (password : Option (List Nat)) (clean_session : Bool) (keep_alive_secs : Nat) :
    List Nat :=
  let flags := (if clean_session then 2 else 0) + (if username.isSome then 128 else 0) +
    (if password.isSome then 64 else 0)
  let var_header := [0x00, 0x04, 0x4D, 0x51, 0x54, 0x54, 0x04, flags,
    keep_alive_secs / 256 % 256, keep_alive_secs % 256]
  let payload := encode_string client_id ++
    (match username with | some u => encode_string u | none => []) ++
    (match password with | some p => encode_bytes p | none => [])
  let remaining_len := var_header.length + payload.length
  (1 * 16) :: encode_remaining_length remaining_len ++ var_header ++ payload

/-- `build_connect`: default options. -/
def build_connect (client_id : List Nat) : List Nat :=
  build_connect_with_options client_id none none true 60

/-- `build_subscribe`: packet id, topic filter, requested QoS; fixed-header
reserved bits `0010`. -/
def build_subscribe (packet_id : Nat) (topic : List Nat) (qos : QoS) : List Nat :=
  let var_header := [packet_id / 256 % 256, packet_id % 256]
  let payload := encode_string topic ++ [qos.toNat]
  let remaining_len := var_header.length + payload.length
  (8 * 16 + 2) :: encode_remaining_length remaining_len ++ var_header ++ payload

/-- `build_unsubscribe`. -/
def build_unsubscribe (packet_id : Nat) (topic : List Nat) : List Nat :=
  let var_header := [packet_id / 256 % 256, packet_id % 256]
  let payload := encode_string topic
  let remaining_len := var_header.length + payload.length
  (10 * 16 + 2) :: encode_remaining_length remaining_len ++ var_header ++ payload

/-- `build_publish_with_id`: length-prefixed topic, optional 16-bit packet id,
raw payload; QoS in flag bits 2:1 and retain in bit 0 of the first byte. -/
def build_publish_with_id (topic : List Nat) (payload : List Nat) (qos : QoS)
    (packet_id : Option Nat) (retain : Bool) : List Nat :=
  let var_header := encode_string topic ++
    (match packet_id with
     | some id => [id / 256 % 256, id % 256]
     | none => [])
  let remaining_len := var_header.length + payload.length
  let flags := 3 * 16 + qos.toNat * 2 + (if retain then 1 else 0)
  flags :: encode_remaining_length remaining_len ++ var_header ++ payload

/-- `build_publish`: QoS-0 convenience wrapper. -/
def build_publish (topic : List Nat) (payload : List Nat) (qos : QoS) : List Nat :=
  build_publish_with_id topic payload qos none false

/-- `build_puback`. -/
def build_puback (packet_id : Nat) : List Nat :=
  [4 * 16, 2, packet_id / 256 % 256, packet_id % 256]

/-- `build_pubrec`. -/
def build_pubrec (packet_id : Nat) : List Nat :=
  [5 * 16, 2, packet_id / 256 % 256, packet_id % 256]

/-- `build_pubrel` (reserved bits `0010`). -/
def build_pubrel (packet_id : Nat) : List Nat :=
  [6 * 16 + 2, 2, packet_id / 256 % 256, packet_id % 256]

/-- `build_pubcomp`. -/
def build_pubcomp (packet_id : Nat) : List Nat :=
  [7 * 16, 2, packet_id / 256 % 256, packet_id % 256]

/-- `build_pingreq`. -/
def build_pingreq : List Nat := [12 * 16, 0]

/-- `build_disconnect`. -/
def build_disconnect : List Nat := [14 * 16, 0]

/-- A successful `parse_packet` consumes at least one byte and never more than
the buffer holds; this bounds the recursion of the `process_data` loop. -/
theorem parse_packet_consumed (data : List Nat) (p : Packet) (n : Nat)
    (h : parse_packet data = .ok (p, n)) : 0 < n ∧ n ≤ data.length := by
  cases data with
  | nil => simp [parse_packet] at h
  | cons first tail =>
    simp only [parse_packet] at h
    split at h
    · simp at h
    · split at h
      · simp at h
      · split at h
        · simp at h
        · split at h
          · simp at h
          · simp only [Except.ok.injEq, Prod.mk.injEq] at h
            simp only [List.length_cons]
            omega

/-- MQTT client configuration (`MqttConfig` in client.rs); strings are their
UTF-8 bytes. -/
structure MqttConfig where
  broker : List Nat
  client_id : List Nat
  username : Option (List Nat)
  password : Option (List Nat)
  keep_alive_secs : Nat
  clean_session : Bool
  auto_reconnect : Bool
  reconnect_delay_ms : Nat
deriving DecidableEq, Repr

/-- `MqttConfig::default`. -/
def MqttConfig.default : MqttConfig where
  broker := [49, 50, 55, 46, 48, 46, 48, 46, 49, 58, 49, 56, 56, 51]
  client_id := [120, 111, 117, 115, 45, 109, 113, 116, 116, 45, 99, 108, 105, 101, 110, 116]
  username := none
  password := none
  keep_alive_secs := 60
  clean_session := true
  auto_reconnect := true
  reconnect_delay_ms := 5000

/-- MQTT client errors (`MqttError` in client.rs). -/
inductive MqttError where
  | ConnectionFailed (msg : List Nat)
  | ConnectionRefused (code : Nat)
  | IoError (msg : List Nat)
  | ProtocolError (msg : List Nat)
  | Timeout
  | NotConnected
deriving DecidableEq, Repr

/-- MQTT client events (`MqttEvent` in client.rs). -/
inductive MqttEvent where
  | Connected
  | Disconnected
  | Message (topic : List Nat) (payload : List Nat)
  | Subscribed (packet_id : Nat)
  | PublishAcked (packet_id : Nat)
  | PublishComplete (packet_id : Nat)
  | Error (e : MqttError)
deriving DecidableEq, Repr

/-- MQTT connection state (`ConnectionState` in client.rs). -/
inductive ConnectionState where
  | Disconnected
  | Connecting
  | Connected
  | Reconnecting
deriving DecidableEq, Repr

/-- The `MqttClient` struct: connection state, 16-bit packet-id counter,
receive accumulator and the `VecDeque` event queue (front = head of list). -/
structure MqttClient where
  config : MqttConfig
  state : ConnectionState
  packet_id : Nat
  rx_buffer : List Nat
  event_queue : List MqttEvent
  last_ping_time : Nat
deriving DecidableEq, Repr

namespace MqttClient

/-- `MqttClient::new`. -/
def new (config : MqttConfig) : MqttClient where
  config := config
  state := .Disconnected
  packet_id := 1
  rx_buffer := []
  event_queue := []
  last_ping_time := 0

/-- `MqttClient::is_connected`. -/
def is_connected (c : MqttClient) : Bool :=
  c.state = .Connected

/-- `MqttClient::next_packet_id`: returns the current counter, then advances
it with `u16` wrap-around (`wrapping_add(1)` is `(id + 1) % 65536`), resetting
a wrapped-to-zero counter to 1. -/
def next_packet_id (c : MqttClient) : Nat × MqttClient :=
  let id := c.packet_id
  let next := (c.packet_id + 1) % 65536
  (id, { c with packet_id := if next = 0 then 1 else next })

/-- `MqttClient::connect`: no-op unless `Disconnected`; otherwise moves to
`Connecting`, builds the CONNECT packet (never sent: the transport is a
placeholder), then immediately sets `Connected` and queues a `Connected`
event. -/
def connect (c : MqttClient) : Except MqttError Unit × MqttClient :=
  if c.state ≠ .Disconnected then (.ok (), c)
  else
    let c1 := { c with state := .Connecting }
    let _connect_packet := build_connect_with_options c1.config.client_id
      c1.config.username c1.config.password c1.config.clean_session
      c1.config.keep_alive_secs
    (.ok (), { c1 with
               state := .Connected
               event_queue := c1.event_queue ++ [.Connected] })

/-- `MqttClient::disconnect`: no-op unless `Connected`; otherwise builds the
DISCONNECT packet, moves to `Disconnected` and queues a `Disconnected`
event. -/
def disconnect (c : MqttClient) : Except MqttError Unit × MqttClient :=
  if c.state ≠ .Connected then (.ok (), c)
  else
    let _disconnect_packet := build_disconnect
    (.ok (), { c with
               state := .Disconnected
               event_queue := c.event_queue ++ [.Disconnected] })

/-- `MqttClient::subscribe`: `NotConnected` unless connected; otherwise
allocates a packet id, builds the SUBSCRIBE packet, and returns the id. -/
def subscribe (c : MqttClient) (topic : List Nat) (qos : QoS) :
    Except MqttError Nat × MqttClient :=
  if c.state ≠ .Connected then (.error .NotConnected, c)
  else
    let (packet_id, c') := c.next_packet_id
    let _subscribe_packet := build_subscribe packet_id topic qos
    (.ok packet_id, c')

/-- `MqttClient::unsubscribe`. -/
def unsubscribe (c : MqttClient) (topic : List Nat) :
    Except MqttError Nat × MqttClient :=
  if c.state ≠ .Connected then (.error .NotConnected, c)
  else
    let (packet_id, c') := c.next_packet_id
    let _unsubscribe_packet := build_unsubscribe packet_id topic
    (.ok packet_id, c')

/-- `MqttClient::publish`: allocates a packet id only for QoS above
`AtMostOnce`. -/
def publish (c : MqttClient) (topic : List Nat) (payload : List Nat) (qos : QoS) :
    Except MqttError (Option Nat) × MqttClient :=
  if c.state ≠ .Connected then (.error .NotConnected, c)
  else
    let (packet_id, c') :=
      if qos ≠ .AtMostOnce then
        let (id, c') := c.next_packet_id
        (some id, c')
      else (none, c)
    let _publish_packet := build_publish_with_id topic payload qos packet_id false
    (.ok packet_id, c')

/-- `MqttClient::ping`. -/
def ping (c : MqttClient) : Except MqttError Unit × MqttClient :=
  if c.state ≠ .Connected then (.error .NotConnected, c)
  else
    let _ping_packet := build_pingreq
    (.ok (), c)

/-- `MqttClient::poll`: pops the front of the event queue. -/
def poll (c : MqttClient) : Option MqttEvent × MqttClient :=
  match c.event_queue with
  | [] => (none, c)
  | e :: rest => (some e, { c with event_queue := rest })

/-- `MqttClient::handle_packet`: protocol dispatch.  The PUBACK/PUBREC/PUBREL/
PUBCOMP replies it builds are local (`let _x = ...`, never sent), so the only
observable effects are state transitions and queued events. -/
def handle_packet (c : MqttClient) (p : Packet) : MqttClient :=
  match p with
  | .Connack _ code =>
    if code = .Accepted then
      { c with state := .Connected, event_queue := c.event_queue ++ [.Connected] }
    else
      { c with
        state := .Disconnected
        event_queue := c.event_queue ++ [.Error (.ConnectionRefused code.toNat)] }
  | .Publish topic payload _ _ _ _ =>
    { c with event_queue := c.event_queue ++ [.Message topic payload] }
  | .Puback packet_id =>
    { c with event_queue := c.event_queue ++ [.PublishAcked packet_id] }
  | .Pubrec _ => c
  | .Pubrel _ => c
  | .Pubcomp packet_id =>
    { c with event_queue := c.event_queue ++ [.PublishComplete packet_id] }
  | .Suback packet_id _ =>
    { c with event_queue := c.event_queue ++ [.Subscribed packet_id] }
  | .Unsuback _ => c
  | .Pingresp => c

/-- The `loop` inside `MqttClient::process_data`: parse, dispatch, drain the
consumed prefix; stop on `Incomplete`; clear the accumulator (the only effect:
the error is merely logged) on any other parse error. -/
def process_loop (c : MqttClient) : MqttClient :=
  match h : parse_packet c.rx_buffer with
  | .ok (p, consumed) =>
    process_loop { handle_packet c p with rx_buffer := c.rx_buffer.drop consumed }
  | .error .Incomplete => c
  | .error _ => { c with rx_buffer := [] }
termination_by c.rx_buffer.length
decreasing_by
  have hb := parse_packet_consumed c.rx_buffer p consumed h
  simp only [List.length_drop]
  omega

/-- `MqttClient::process_data`: extend the accumulator, then run the parse
loop. -/
def process_data (c : MqttClient) (data : List Nat) : MqttClient :=
  process_loop { c with rx_buffer := c.rx_buffer ++ data }

end MqttClient

/-- One public operation on the client, for stating properties over arbitrary
call sequences. -/
inductive ClientOp where
  | connect
  | disconnect
  | subscribe (topic : List Nat) (qos : QoS)
  | unsubscribe (topic : List Nat)
  | publish (topic : List Nat) (payload : List Nat) (qos : QoS)
  | ping
  | poll
  | process_data (data : List Nat)
deriving DecidableEq, Repr

/-- Run one operation, keeping the resulting client state. -/
def ClientOp.run (c : MqttClient) : ClientOp → MqttClient
  | .connect => (c.connect).2
  | .disconnect => (c.disconnect).2
  | .subscribe topic qos => (c.subscribe topic qos).2
  | .unsubscribe topic => (c.unsubscribe topic).2
  | .publish topic payload qos => (c.publish topic payload qos).2
  | .ping => (c.ping).2
  | .poll => (c.poll).2
  | .process_data data => c.process_data data

/-- Run a sequence of operations left to right. -/
def runOps (c : MqttClient) (ops : List ClientOp) : MqttClient :=
  ops.foldl ClientOp.run c

end Mqtt

namespace Ccr

/-- `MAX_EVENTS` in events.rs. -/
def MAX_EVENTS : Nat := 64

/-- `MAX_TEXT_LEN` in events.rs. -/
def MAX_TEXT_LEN : Nat := 200

/-- Event types from the CCR bridge (`CcrEvent` in events.rs); `String` fields
are embedded as `List Char`. -/
inductive CcrEvent where
  | SessionStart (session_id : List Char) (source : List Char) (model : List Char)
  | SessionEnd (session_id : List Char) (reason : List Char)
  | Stop (session_id : List Char)
  | UserInput (text : List Char) (session_id : List Char)
  | ToolCall (id : List Char) (tool : List Char) (args : List Char)
      (session_id : List Char)
  | ToolResult (id : List Char) (output : List Char) (session_id : List Char)
  | PermissionPending (request_id : List Char) (tool : List Char)
      (command : List Char) (session_id : List Char)
  | PermissionResolved (request_id : List Char) (decision : List Char)
      (session_id : List Char)
  | PermissionTimeout (request_id : List Char) (session_id : List Char)
  | Notification (notification_type : List Char) (message : List Char)
      (session_id : List Char)
  | Status (connected : Bool) (message : List Char)
deriving DecidableEq, Repr

/-- The UTF-8 byte width of one scalar value, as Rust's `str::len` counts it. -/
def utf8CharWidth (c : Char) : Nat :=
  if c.toNat < 0x80 then 1
  else if c.toNat < 0x800 then 2
  else if c.toNat < 0x10000 then 3
  else 4

/-- Rust `str::len` of a character list: total UTF-8 byte count. -/
def utf8ByteLen (s : List Char) : Nat :=
  (s.map utf8CharWidth).sum

/-- Rust `char::is_whitespace` (the Unicode `White_Space` property), used by
`str::trim_start`. -/
def rustIsWhitespace (c : Char) : Bool :=
  c.toNat ∈ [0x09, 0x0A, 0x0B, 0x0C, 0x0D, 0x20, 0x85, 0xA0, 0x1680,
    0x2000, 0x2001, 0x2002, 0x2003, 0x2004, 0x2005, 0x2006, 0x2007, 0x2008,
    0x2009, 0x200A, 0x2028, 0x2029, 0x202F, 0x205F, 0x3000]

/-- `str::find(pattern)` followed by slicing past the match: the suffix of
`text` after the first occurrence of `pattern`, or `none` when absent.  The
patterns used are ASCII-delimited, so byte search and character search find
the same occurrence. -/
def dropThroughPattern (pattern : List Char) : List Char → Option (List Char)
  | [] => if pattern = [] then some [] else none
  | c :: rest =>
    if pattern.isPrefixOf (c :: rest) then some ((c :: rest).drop pattern.length)
    else dropThroughPattern pattern rest

/-- `trimmed[1..].find('"')`: the characters before the first quote, or `none`
when no quote follows. -/
def takeUntilQuote : List Char → Option (List Char)
  | [] => none
  | c :: rest =>
    if c = '"' then some []
    else
      match takeUntilQuote rest with
      | some v => some (c :: v)
      | none => none

/-- Rust byte-slicing `&value[..n]`: `none` models the panic when byte index
`n` is out of range or not on a character boundary. -/
def byteTruncate (n : Nat) : List Char → Option (List Char)
  | [] => if n = 0 then some [] else none
  | c :: rest =>
    if n = 0 then some []
    else if utf8CharWidth c ≤ n then
      match byteTruncate (n - utf8CharWidth c) rest with
      | some v => some (c :: v)
      | none => none
    else none

/-- `CcrEvent::unescape_json`: `\n \r \t \" \\ \/` map to their characters,
any other escaped character keeps its backslash, a trailing backslash is kept. -/
def unescape_json : List Char → List Char
  | [] => []
  | '\\' :: rest =>
    match rest with
    | 'n' :: t => '\n' :: unescape_json t
    | 'r' :: t => '\r' :: unescape_json t
    | 't' :: t => '\t' :: unescape_json t
    | '"' :: t => '"' :: unescape_json t
    | '\\' :: t => '\\' :: unescape_json t
    | '/' :: t => '/' :: unescape_json t
    | other :: t => '\\' :: other :: unescape_json t
    | [] => ['\\']
  | c :: rest => c :: unescape_json rest

/-- `CcrEvent::get_json_string`: find `"key":`, trim whitespace, require an
opening quote, take the value up to the next quote, truncate to
`MAX_TEXT_LEN` bytes when longer, unescape.  `.error ()` models the Rust
panic of `&value[..MAX_TEXT_LEN]` when byte 200 falls inside a character. -/
def get_json_string (text : List Char) (key : List Char) :
    Except Unit (Option (List Char)) :=
  let pattern := '"' :: key ++ ['"', ':']
  match dropThroughPattern pattern text with
  | none => .ok none
  | some after_key =>
    match after_key.dropWhile rustIsWhitespace with
    | '"' :: val_and_rest =>
      match takeUntilQuote val_and_rest with
      | none => .ok none
      | some value =>
        if utf8ByteLen value > MAX_TEXT_LEN then
          match byteTruncate MAX_TEXT_LEN value with
          | none => .error ()
          | some truncated => .ok (some (unescape_json truncated))
        else .ok (some (unescape_json value))
    | _ => .ok none

/-- `get_json_string(..).unwrap_or_default()`, propagating a panic. -/
def get_json_string_or_default (text : List Char) (key : List Char) :
    Except Unit (List Char) :=
  match get_json_string text key with
  | .error () => .error ()
  | .ok v => .ok (v.getD [])

/-- `CcrEvent::from_json`: dispatch on the mandatory `type` field; unknown
types yield no event.  `.error ()` models a panic inside a field
extraction. -/
def CcrEvent.from_json (text : List Char) : Except Unit (Option CcrEvent) :=
  match get_json_string text "type".data with
  | .error () => .error ()
  | .ok none => .ok none
  | .ok (some etype) =>
    if etype = "session_start".data then do
      let session_id ← get_json_string_or_default text "session_id".data
      let source ← get_json_string_or_default text "source".data
      let model ← get_json_string_or_default text "model".data
      .ok (some (.SessionStart session_id source model))
    else if etype = "session_end".data then do
      let session_id ← get_json_string_or_default text "session_id".data
      let reason ← get_json_string_or_default text "reason".data
      .ok (some (.SessionEnd session_id reason))
    else if etype = "stop".data then do
      let session_id ← get_json_string_or_default text "session_id".data
      .ok (some (.Stop session_id))
    else if etype = "user_input".data then do
      let txt ← get_json_string_or_default text "text".data
      let session_id ← get_json_string_or_default text "session_id".data
      .ok (some (.UserInput txt session_id))
    else if etype = "tool_call".data then do
      let id ← get_json_string_or_default text "id".data
      let tool ← get_json_string_or_default text "tool".data
      let args ← get_json_string_or_default text "args".data
      let session_id ← get_json_string_or_default text "session_id".data
      .ok (some (.ToolCall id tool args session_id))
    else if etype = "tool_result".data then do
      let id ← get_json_string_or_default text "id".data
      let output ← get_json_string_or_default text "output".data
      let session_id ← get_json_string_or_default text "session_id".data
      .ok (some (.ToolResult id output session_id))
    else if etype = "permission_pending".data then do
      let request_id ← get_json_string_or_default text "request_id".data
      let tool ← get_json_string_or_default text "tool".data
      let command ← get_json_string_or_default text "command".data
      let session_id ← get_json_string_or_default text "session_id".data
      .ok (some (.PermissionPending request_id tool command session_id))
    else if etype = "permission_resolved".data then do
      let request_id ← get_json_string_or_default text "request_id".data
      let decision ← get_json_string_or_default text "decision".data
      let session_id ← get_json_string_or_default text "session_id".data
      .ok (some (.PermissionResolved request_id decision session_id))
    else if etype = "permission_timeout".data then do
      let request_id ← get_json_string_or_default text "request_id".data
      let session_id ← get_json_string_or_default text "session_id".data
      .ok (some (.PermissionTimeout request_id session_id))
    else if etype = "notification".data then do
      let notification_type ← get_json_string_or_default text "notification_type".data
      let message ← get_json_string_or_default text "message".data
      let session_id ← get_json_string_or_default text "session_id".data
      .ok (some (.Notification notification_type message session_id))
    else .ok none

/-- `CcrEvent::is_permission_pending`. -/
def CcrEvent.is_permission_pending : CcrEvent → Bool
  | .PermissionPending _ _ _ _ => true
  | _ => false

/-- The fixed-size circular event queue (`EventQueue` in events.rs): a slot
array of length `MAX_EVENTS` with head/tail/count indices. -/
structure EventQueue where
  events : List (Option CcrEvent)
  head : Nat
  tail : Nat
  count : Nat
deriving DecidableEq, Repr

namespace EventQueue

/-- `EventQueue::new`. -/
def new : EventQueue where
  events := List.replicate MAX_EVENTS none
  head := 0
  tail := 0
  count := 0

/-- `EventQueue::push`: when full, clear and advance `head` (dropping the
oldest event), then write at `tail` and advance it. -/
def push (q : EventQueue) (event : CcrEvent) : EventQueue :=
  let q :=
    if q.count = MAX_EVENTS then
      { q with
        events := q.events.set q.head none
        head := (q.head + 1) % MAX_EVENTS
        count := q.count - 1 }
    else q
  { q with
    events := q.events.set q.tail (some event)
    tail := (q.tail + 1) % MAX_EVENTS
    count := q.count + 1 }

/-- `EventQueue::len`. -/
def len (q : EventQueue) : Nat := q.count

/-- `EventQueue::get`: logical index 0 is the oldest entry. -/
def get (q : EventQueue) (index : Nat) : Option CcrEvent :=
  if index ≥ q.count then none
  else (q.events.getD ((q.head + index) % MAX_EVENTS) none)

/-- Push a list of events in order. -/
def pushAll (q : EventQueue) (es : List CcrEvent) : EventQueue :=
  es.foldl push q

/-- The structural well-formedness `push` preserves: a 64-slot array, a count
within capacity, `head` in range, and `tail` the slot past the newest entry. -/
def Wf (q : EventQueue) : Prop :=
  q.events.length = MAX_EVENTS ∧ q.count ≤ MAX_EVENTS ∧ q.head < MAX_EVENTS ∧
    q.tail = (q.head + q.count) % MAX_EVENTS

instance (q : EventQueue) : Decidable q.Wf := by
  unfold Wf
  infer_instance

end EventQueue

end Ccr

namespace Mqtt

theorem encode_remaining_length_ne_nil (len : Nat) : encode_remaining_length len ≠ [] := by
  unfold encode_remaining_length
  split <;> simp

theorem decode_remaining_length_aux_encode (fuel : Nat) :
    ∀ (len mult len0 consumed : Nat) (rest : List Nat),
      (encode_remaining_length len).length ≤ fuel →
      decode_remaining_length_aux fuel (encode_remaining_length len ++ rest) len0 mult consumed =
        some (len0 + len * mult, consumed + (encode_remaining_length len).length) := by
  induction fuel with
  | zero =>
    intro len mult len0 consumed rest hf
    exact absurd (List.length_eq_zero.mp (Nat.le_zero.mp hf)) (encode_remaining_length_ne_nil len)
  | succ fuel ih =>
    intro len mult len0 consumed rest hf
    by_cases h : len / 128 = 0
    · have hlt : len < 128 := by omega
      rw [encode_remaining_length, dif_pos h]
      simp only [List.singleton_append, List.length_singleton]
      unfold decode_remaining_length_aux
      have hb : len % 128 / 128 % 2 = 0 := by omega
      rw [if_pos hb]
      simp [Nat.mod_eq_of_lt hlt]
    · rw [encode_remaining_length, dif_neg h]
      simp only [List.cons_append, List.length_cons]
      unfold decode_remaining_length_aux
      have hb : ¬ ((len % 128 + 128) / 128 % 2 = 0) := by omega
      rw [if_neg hb]
      have hlen : (encode_remaining_length (len / 128)).length ≤ fuel := by
        rw [encode_remaining_length, dif_neg h] at hf
        simp only [List.length_cons] at hf
        omega
      rw [ih (len / 128) (mult * 128) (len0 + (len % 128 + 128) % 128 * mult)
        (consumed + 1) rest hlen]
      have harith : len0 + (len % 128 + 128) % 128 * mult + len / 128 * (mult * 128) =
          len0 + len * mult := by
        have hm : (len % 128 + 128) % 128 = len % 128 := by omega
        rw [hm]
        have hdm : 128 * (len / 128) + len % 128 = len := Nat.div_add_mod len 128
        calc len0 + len % 128 * mult + len / 128 * (mult * 128)
            = len0 + (128 * (len / 128) + len % 128) * mult := by ring
          _ = len0 + len * mult := by rw [hdm]
      rw [harith]
      have hcons : consumed + 1 + (encode_remaining_length (len / 128)).length =
          consumed + ((encode_remaining_length (len / 128)).length + 1) := by omega
      rw [hcons]

theorem encode_remaining_length_length (len : Nat) (h : len ≤ 268435455) :
    (encode_remaining_length len).length =
      if len < 128 then 1 else if len < 16384 then 2 else if len < 2097152 then 3 else 4 := by
  by_cases h1 : len / 128 = 0
  · rw [encode_remaining_length, dif_pos h1]
    have : len < 128 := by omega
    simp [this]
  · rw [encode_remaining_length, dif_neg h1]
    by_cases h2 : len / 128 / 128 = 0
    · rw [encode_remaining_length, dif_pos h2]
      have ha : ¬ len < 128 := by omega
      have hb : len < 16384 := by omega
      simp [ha, hb]
    · rw [encode_remaining_length, dif_neg h2]
      by_cases h3 : len / 128 / 128 / 128 = 0
      · rw [encode_remaining_length, dif_pos h3]
        have ha : ¬ len < 128 := by omega
        have hb : ¬ len < 16384 := by omega
        have hc : len < 2097152 := by omega
        simp [ha, hb, hc]
      · rw [encode_remaining_length, dif_neg h3]
        have h4 : len / 128 / 128 / 128 / 128 = 0 := by omega
        rw [encode_remaining_length, dif_pos h4]
        have ha : ¬ len < 128 := by omega
        have hb : ¬ len < 16384 := by omega
        have hc : ¬ len < 2097152 := by omega
        simp [ha, hb, hc]

theorem decode_encode_remaining_length (len : Nat) (h : len ≤ 268435455) (rest : List Nat) :
    decode_remaining_length (encode_remaining_length len ++ rest) =
      some (len, (encode_remaining_length len).length) := by
  have hlen : (encode_remaining_length len).length ≤ 4 := by
    rw [encode_remaining_length_length len h]
    split_ifs <;> omega
  have := decode_remaining_length_aux_encode 4 len 1 0 0 rest hlen
  simpa [decode_remaining_length] using this

theorem encode_remaining_length_digit (i : Nat) :
    ∀ len, i < (encode_remaining_length len).length →
      (encode_remaining_length len).getD i 0 =
        len / 128 ^ i % 128 +
          (if i + 1 < (encode_remaining_length len).length then 128 else 0) := by
  induction i with
  | zero =>
    intro len _
    by_cases h : len / 128 = 0
    · rw [encode_remaining_length, dif_pos h]
      simp
    · rw [encode_remaining_length, dif_neg h]
      have hpos : 0 < (encode_remaining_length (len / 128)).length :=
        List.length_pos.mpr (encode_remaining_length_ne_nil (len / 128))
      simp [hpos]
  | succ i ih =>
    intro len hi
    by_cases h : len / 128 = 0
    · rw [encode_remaining_length, dif_pos h] at hi ⊢
      simp at hi
    · rw [encode_remaining_length, dif_neg h] at hi ⊢
      simp only [List.length_cons] at hi
      have hi' : i < (encode_remaining_length (len / 128)).length := by omega
      simp only [List.getD_cons_succ, List.length_cons]
      rw [ih (len / 128) hi']
      have hd : len / 128 / 128 ^ i = len / 128 ^ (i + 1) := by
        rw [Nat.div_div_eq_div_mul, pow_succ, mul_comm (128 ^ i) 128]
      rw [hd]
      congr 1
      split_ifs <;> omega

end Mqtt

namespace Mqtt

theorem encode_remaining_length_127 : encode_remaining_length 127 = [127] := by
  rw [encode_remaining_length]
  norm_num

theorem encode_remaining_length_128 : encode_remaining_length 128 = [0x80, 0x01] := by
  rw [encode_remaining_length]
  norm_num
  rw [encode_remaining_length]
  norm_num

theorem encode_remaining_length_16383 : encode_remaining_length 16383 = [0xFF, 0x7F] := by
  rw [encode_remaining_length]
  norm_num
  rw [encode_remaining_length]
  norm_num

/-- Claim C2: for every `len ≤ 268435455`, `encode_remaining_length` emits the
minimal 1-to-4-byte encoding, low-order 7 bits first with the continuation bit
(+128) on all but the last byte, and `decode_remaining_length` applied to that
output (with or without trailing bytes) returns `some (len, bytes_emitted)`;
in particular 127, 128 and 16383 encode to `[127]`, `[0x80, 0x01]` and
`[0xFF, 0x7F]`. -/
theorem remaining_length_codec (len : Nat) (h : len ≤ 268435455) :
    (∀ rest, decode_remaining_length (encode_remaining_length len ++ rest) =
        some (len, (encode_remaining_length len).length)) ∧
    decode_remaining_length (encode_remaining_length len) =
      some (len, (encode_remaining_length len).length) ∧
    1 ≤ (encode_remaining_length len).length ∧
    (encode_remaining_length len).length ≤ 4 ∧
    (encode_remaining_length len).length =
      (if len < 128 then 1 else if len < 16384 then 2 else
        if len < 2097152 then 3 else 4) ∧
    (∀ i, i + 1 < (encode_remaining_length len).length →
      (encode_remaining_length len).getD i 0 = len / 128 ^ i % 128 + 128) ∧
    ((encode_remaining_length len).getD ((encode_remaining_length len).length - 1) 0 =
      len / 128 ^ ((encode_remaining_length len).length - 1) % 128) ∧
    encode_remaining_length 127 = [127] ∧
    encode_remaining_length 128 = [0x80, 0x01] ∧
    encode_remaining_length 16383 = [0xFF, 0x7F] ∧
    decode_remaining_length [127] = some (127, 1) ∧
    decode_remaining_length [0x80, 0x01] = some (128, 2) ∧
    decode_remaining_length [0xFF, 0x7F] = some (16383, 2) := by
  have hlenf := encode_remaining_length_length len h
  have hle : (encode_remaining_length len).length ≤ 4 := by
    rw [hlenf]; split_ifs <;> omega
  have hpos : 0 < (encode_remaining_length len).length :=
    List.length_pos.mpr (encode_remaining_length_ne_nil len)
  refine ⟨fun rest => decode_encode_remaining_length len h rest, ?_, hpos, hle, hlenf,
    ?_, ?_, encode_remaining_length_127, encode_remaining_length_128,
    encode_remaining_length_16383, by decide, by decide, by decide⟩
  · have := decode_encode_remaining_length len h []
    simpa using this
  · intro i hi
    have := encode_remaining_length_digit i len (by omega)
    rw [this, if_pos hi]
  · have hi : (encode_remaining_length len).length - 1 <
        (encode_remaining_length len).length := by omega
    have := encode_remaining_length_digit ((encode_remaining_length len).length - 1) len hi
    rw [this, if_neg (by omega)]
    omega

/-- Witness for C2 at `len = 700`. -/
theorem remaining_length_codec_witness :
    decode_remaining_length (encode_remaining_length 700 ++ [9]) =
      some (700, (encode_remaining_length 700).length) :=
  (remaining_length_codec 700 (by norm_num)).1 [9]

end Mqtt

namespace Mqtt

theorem decode_string_encode_string (s rest : List Nat) (hlen : s.length < 65536)
    (hv : utf8_valid s = true) :
    decode_string (encode_string s ++ rest) = .ok (s, 2 + s.length) := by
  show decode_string (s.length / 256 % 256 :: s.length % 256 :: (s ++ rest)) = _
  unfold decode_string
  have hl : s.length / 256 % 256 * 256 + s.length % 256 = s.length := by omega
  simp only [hl]
  have hguard : ¬ ((s ++ rest).length < s.length) := by
    simp only [List.length_append]
    omega
  rw [if_neg hguard, List.take_left, hv]
  simp

end Mqtt

namespace Mqtt

theorem publish_roundtrip_aux (topic payload idb : List Nat) (qos : QoS)
    (pid : Option Nat) (retain : Bool) (f : Nat)
    (hf16 : f / 16 = 3)
    (hfq : f / 2 % 4 = qos.toNat)
    (hfdup : f / 8 % 2 = 0)
    (hfret : decide (f % 2 = 1) = retain)
    (htopic : topic.length < 65536)
    (hutf8 : utf8_valid topic = true)
    (hrem : (encode_string topic ++ idb).length + payload.length ≤ 268435455)
    (hcase : (qos = .AtMostOnce ∧ pid = none ∧ idb = []) ∨
      (¬ qos = .AtMostOnce ∧ ∃ id, pid = some id ∧ id < 65536 ∧
        idb = [id / 256 % 256, id % 256])) :
    parse_packet (f ::
        encode_remaining_length ((encode_string topic ++ idb).length + payload.length) ++
        (encode_string topic ++ idb) ++ payload) =
      .ok (.Publish topic payload qos pid retain false,
        (f ::
          encode_remaining_length ((encode_string topic ++ idb).length + payload.length) ++
          (encode_string topic ++ idb) ++ payload).length) := by
  have hpt : PacketType.from_byte f = some .Publish := by
    unfold PacketType.from_byte
    rw [hf16]
  have hqos : QoS.from_byte (f / 2 % 4) = some qos := by
    rw [hfq]; cases qos <;> rfl
  have hdupf : decide (f / 8 % 2 = 1) = false := by rw [hfdup]; rfl
  have hdec := decode_encode_remaining_length
    ((encode_string topic ++ idb).length + payload.length) hrem
    (encode_string topic ++ (idb ++ payload))
  have hds := decode_string_encode_string topic (idb ++ payload) htopic hutf8
  simp only [List.cons_append, List.append_assoc]
  simp only [parse_packet, hpt]
  simp only [hdec]
  rw [if_neg (by simp only [List.length_append]; omega)]
  have hdrop : (encode_remaining_length
        ((encode_string topic ++ idb).length + payload.length) ++
        (encode_string topic ++ (idb ++ payload))).drop
      (encode_remaining_length
        ((encode_string topic ++ idb).length + payload.length)).length =
      encode_string topic ++ (idb ++ payload) := List.drop_left _ _
  rw [hdrop]
  have htake : (encode_string topic ++ (idb ++ payload)).take
      ((encode_string topic ++ idb).length + payload.length) =
      encode_string topic ++ (idb ++ payload) := by
    have hlen : (encode_string topic ++ idb).length + payload.length =
        (encode_string topic ++ (idb ++ payload)).length := by
      simp only [List.length_append]
      omega
    rw [hlen, List.take_length]
  rw [htake]
  simp only [parse_body, parse_publish, hqos, hds]
  have hdrop2 : (encode_string topic ++ (idb ++ payload)).drop (2 + topic.length) =
      idb ++ payload := by
    show (topic.length / 256 % 256 :: topic.length % 256 ::
      (topic ++ (idb ++ payload))).drop (2 + topic.length) = _
    rw [show 2 + topic.length = topic.length + 1 + 1 from by omega]
    rw [List.drop_succ_cons, List.drop_succ_cons]
    exact List.drop_left _ _
  rw [hdrop2]
  rcases hcase with ⟨hq, hpid, hidb⟩ | ⟨hq, id, hpid, hlt, hidb⟩
  · subst hq hpid hidb
    rw [if_pos rfl]
    simp only [List.nil_append, List.append_nil, hfret, hdupf, Except.ok.injEq,
      Prod.mk.injEq, Packet.Publish.injEq, and_true, true_and, encode_string,
      List.length_cons, List.length_append, List.length_nil]
    omega
  · subst hpid hidb
    rw [if_neg hq]
    simp only [List.cons_append, List.nil_append]
    have hidrec : id / 256 % 256 * 256 + id % 256 = id := by omega
    simp only [hidrec, hfret, hdupf, Except.ok.injEq, Prod.mk.injEq,
      Packet.Publish.injEq, and_true, true_and, encode_string,
      List.length_cons, List.length_append, List.length_nil]
    omega

end Mqtt

namespace Mqtt

/-- Claim C1: for every topic (valid UTF-8 bytes, length below 65536), payload,
QoS, retain flag, and packet identifier supplied exactly when the QoS is not
`AtMostOnce`, with the resulting remaining length at most 268435455,
`parse_packet` applied to `build_publish_with_id`'s output returns `ok` with a
`Publish` packet carrying the same topic, payload, qos, packet id and retain,
`dup` false, and a consumed length equal to the built vector's length. -/
theorem publish_roundtrip (topic payload : List Nat) (qos : QoS)
    (packet_id : Option Nat) (retain : Bool)
    (htopic : topic.length < 65536)
    (hutf8 : utf8_valid topic = true)
    (hid : packet_id = none ↔ qos = .AtMostOnce)
    (hid16 : ∀ id, packet_id = some id → id < 65536)
    (hrem : 2 + topic.length +
      (match packet_id with | some _ => 2 | none => 0) + payload.length ≤ 268435455) :
    parse_packet (build_publish_with_id topic payload qos packet_id retain) =
      .ok (.Publish topic payload qos packet_id retain false,
        (build_publish_with_id topic payload qos packet_id retain).length) := by
  rcases packet_id with _ | id
  · have hq0 : qos = .AtMostOnce := hid.mp rfl
    subst hq0
    have hrem0 : 2 + topic.length + 0 + payload.length ≤ 268435455 := hrem
    have hb : build_publish_with_id topic payload .AtMostOnce none retain =
        (3 * 16 + QoS.toNat .AtMostOnce * 2 + (if retain then 1 else 0)) ::
          encode_remaining_length
            ((encode_string topic ++ ([] : List Nat)).length + payload.length) ++
          (encode_string topic ++ ([] : List Nat)) ++ payload := rfl
    rw [hb]
    exact publish_roundtrip_aux topic payload [] .AtMostOnce none retain _
      (by cases retain <;> decide) (by cases retain <;> decide)
      (by cases retain <;> decide) (by cases retain <;> decide)
      htopic hutf8
      (by simp only [List.append_nil, encode_string, List.length_cons]; omega)
      (Or.inl ⟨rfl, rfl, rfl⟩)
  · have hqne : ¬ qos = .AtMostOnce := by
      intro hh
      have := hid.mpr hh
      simp at this
    have hlt : id < 65536 := hid16 id rfl
    have hrem0 : 2 + topic.length + 2 + payload.length ≤ 268435455 := hrem
    have hb : build_publish_with_id topic payload qos (some id) retain =
        (3 * 16 + qos.toNat * 2 + (if retain then 1 else 0)) ::
          encode_remaining_length
            ((encode_string topic ++ [id / 256 % 256, id % 256]).length +
              payload.length) ++
          (encode_string topic ++ [id / 256 % 256, id % 256]) ++ payload := rfl
    rw [hb]
    exact publish_roundtrip_aux topic payload [id / 256 % 256, id % 256] qos
      (some id) retain _
      (by cases retain <;> cases qos <;> decide) (by cases retain <;> cases qos <;> decide)
      (by cases retain <;> cases qos <;> decide) (by cases retain <;> cases qos <;> decide)
      htopic hutf8
      (by simp only [encode_string, List.length_append, List.length_cons,
            List.length_nil]; omega)
      (Or.inr ⟨hqne, id, rfl, hlt, rfl⟩)

/-- Witness for C1: topic "t", payload "hi", QoS 1, packet id 7, retain set. -/
theorem publish_roundtrip_witness :
    parse_packet (build_publish_with_id [116] [104, 105] .AtLeastOnce (some 7) true) =
      .ok (.Publish [116] [104, 105] .AtLeastOnce (some 7) true false,
        (build_publish_with_id [116] [104, 105] .AtLeastOnce (some 7) true).length) :=
  publish_roundtrip [116] [104, 105] .AtLeastOnce (some 7) true (by decide) (by decide)
    (by decide) (fun id h => by injection h with h7; omega) (by decide)

end Mqtt

namespace Mqtt

/-- Claim C3 (amended): `process_data` appends the bytes to the accumulator and
runs the parse loop; a successful parse dispatches the packet and drops exactly
the consumed prefix before looping; `Incomplete` stops the loop with the
accumulator unchanged; any other parse error clears the whole accumulator and
stops, leaving every other field — in particular the event queue — unchanged
(the error is only logged, no error event is enqueued). -/
theorem process_data_loop_behavior :
    (∀ (c : MqttClient) (data : List Nat),
      c.process_data data =
        MqttClient.process_loop { c with rx_buffer := c.rx_buffer ++ data }) ∧
    (∀ c : MqttClient, parse_packet c.rx_buffer = .error .Incomplete →
      c.process_loop = c) ∧
    (∀ (c : MqttClient) (p : Packet) (n : Nat),
      parse_packet c.rx_buffer = .ok (p, n) →
      c.process_loop =
        MqttClient.process_loop
          { c.handle_packet p with rx_buffer := c.rx_buffer.drop n }) ∧
    (∀ (c : MqttClient) (e : ParseError),
      parse_packet c.rx_buffer = .error e → e ≠ .Incomplete →
      c.process_loop = { c with rx_buffer := [] }) := by
  refine ⟨fun c data => rfl, fun c h => ?_, fun c p n h => ?_, fun c e h hne => ?_⟩
  · rw [MqttClient.process_loop]
    split <;> simp_all
  · rw [MqttClient.process_loop]
    split <;> simp_all
  · rw [MqttClient.process_loop]
    split <;> simp_all

/-- Counterexample for C3 as stated: feeding the single byte `0x00` (unknown
packet type) to a fresh client clears the accumulator but enqueues no event at
all — the claimed single error event never reaches the caller. -/
theorem process_data_error_no_event :
    MqttClient.process_data (MqttClient.new MqttConfig.default) [0] =
      { MqttClient.new MqttConfig.default with rx_buffer := [] } ∧
    (MqttClient.process_data (MqttClient.new MqttConfig.default) [0]).event_queue = [] := by
  constructor
  · unfold MqttClient.process_data
    rw [MqttClient.process_loop]
    rfl
  · unfold MqttClient.process_data
    rw [MqttClient.process_loop]
    rfl

/-- Witness for C3 (amended), error arm at a concrete client holding `[0x00]`. -/
theorem process_data_loop_behavior_witness :
    MqttClient.process_loop
        { MqttClient.new MqttConfig.default with rx_buffer := [0] } =
      { { MqttClient.new MqttConfig.default with rx_buffer := [0] } with
        rx_buffer := [] } :=
  process_data_loop_behavior.2.2.2
    { MqttClient.new MqttConfig.default with rx_buffer := [0] }
    .UnknownType rfl (by decide)

/-- Claim C5, against the code as written: `connect()` on a fresh
(`Disconnected`) client is a placeholder that transitions straight to
`Connected` and enqueues a `Connected` event during the call itself, with no
CONNACK processed; the CONNACK dispatch in `handle_packet` does behave as the
claim says (Accepted connects, a rejection code disconnects and enqueues
`Error (ConnectionRefused code)`). -/
theorem connect_placeholder_behavior :
    (MqttClient.connect (MqttClient.new MqttConfig.default)).2.state = .Connected ∧
    (MqttClient.connect (MqttClient.new MqttConfig.default)).2.event_queue =
      [.Connected] ∧
    (MqttClient.connect (MqttClient.new MqttConfig.default)).1 = .ok () ∧
    (∀ (c : MqttClient) (sp : Bool),
      c.handle_packet (.Connack sp .Accepted) =
        { c with state := .Connected,
                 event_queue := c.event_queue ++ [.Connected] }) ∧
    (∀ (c : MqttClient) (sp : Bool) (code : ConnackCode), code ≠ .Accepted →
      c.handle_packet (.Connack sp code) =
        { c with state := .Disconnected,
                 event_queue := c.event_queue ++
                   [.Error (.ConnectionRefused code.toNat)] }) := by
  refine ⟨rfl, rfl, rfl, fun c sp => rfl, fun c sp code hne => ?_⟩
  simp only [MqttClient.handle_packet]
  rw [if_neg hne]

/-- Claim C6: every one of `subscribe`, `unsubscribe`, `publish` and `ping`
returns `NotConnected` when the state is not `Connected`, and returns the
client entirely unchanged. -/
theorem not_connected_ops_fail (c : MqttClient) (topic payload : List Nat)
    (qos : QoS) (h : c.state ≠ .Connected) :
    c.subscribe topic qos = (.error .NotConnected, c) ∧
    c.unsubscribe topic = (.error .NotConnected, c) ∧
    c.publish topic payload qos = (.error .NotConnected, c) ∧
    c.ping = (.error .NotConnected, c) := by
  unfold MqttClient.subscribe MqttClient.unsubscribe MqttClient.publish MqttClient.ping
  refine ⟨?_, ?_, ?_, ?_⟩ <;> rw [if_pos h]

/-- Witness for C6 at a fresh (disconnected) client. -/
theorem not_connected_ops_fail_witness :
    MqttClient.subscribe (MqttClient.new MqttConfig.default) [116] .AtLeastOnce =
      (.error .NotConnected, MqttClient.new MqttConfig.default) :=
  (not_connected_ops_fail (MqttClient.new MqttConfig.default) [116] [1]
    .AtLeastOnce (by decide)).1

/-- Claim C10: `disconnect()` outside the `Connected` state (including
`Connecting` and `Reconnecting`) returns `Ok(())` and leaves the client
completely unchanged; only from `Connected` does it set `Disconnected` and
enqueue a `Disconnected` event. -/
theorem disconnect_frame (c : MqttClient) :
    (c.state ≠ .Connected → c.disconnect = (.ok (), c)) ∧
    (c.state = .Connected → c.disconnect = (.ok (),
      { c with state := .Disconnected,
               event_queue := c.event_queue ++ [.Disconnected] })) := by
  constructor
  · intro h
    unfold MqttClient.disconnect
    rw [if_pos h]
  · intro h
    unfold MqttClient.disconnect
    rw [if_neg (not_not_intro h)]

/-- Witness for C10 at a client in the `Connecting` state. -/
theorem disconnect_frame_witness :
    MqttClient.disconnect { MqttClient.new MqttConfig.default with
      state := .Connecting } =
      (.ok (), { MqttClient.new MqttConfig.default with state := .Connecting }) :=
  (disconnect_frame _).1 (by decide)

end Mqtt

namespace Mqtt

theorem handle_packet_packet_id (c : MqttClient) (p : Packet) :
    (c.handle_packet p).packet_id = c.packet_id := by
  cases p <;> simp only [MqttClient.handle_packet] <;> try rfl
  split <;> rfl

theorem process_loop_packet_id (c : MqttClient) :
    (MqttClient.process_loop c).packet_id = c.packet_id := by
  induction c using MqttClient.process_loop.induct with
  | case1 c p consumed heq ih =>
    rw [MqttClient.process_loop]
    split <;> simp_all [handle_packet_packet_id]
  | case2 c heq =>
    rw [MqttClient.process_loop]
    split <;> simp_all
  | case3 c e heq hne =>
    rw [MqttClient.process_loop]
    split <;> simp_all

theorem run_op_packet_id_wf (c : MqttClient) (op : ClientOp)
    (h1 : 1 ≤ c.packet_id) (h2 : c.packet_id < 65536) :
    1 ≤ (ClientOp.run c op).packet_id ∧ (ClientOp.run c op).packet_id < 65536 := by
  cases op with
  | connect =>
    simp only [ClientOp.run, MqttClient.connect]
    split <;> exact ⟨h1, h2⟩
  | disconnect =>
    simp only [ClientOp.run, MqttClient.disconnect]
    split <;> exact ⟨h1, h2⟩
  | subscribe topic qos =>
    simp only [ClientOp.run, MqttClient.subscribe, MqttClient.next_packet_id]
    split
    · exact ⟨h1, h2⟩
    · constructor <;> (simp only []; split_ifs <;> omega)
  | unsubscribe topic =>
    simp only [ClientOp.run, MqttClient.unsubscribe, MqttClient.next_packet_id]
    split
    · exact ⟨h1, h2⟩
    · constructor <;> (simp only []; split_ifs <;> omega)
  | publish topic payload qos =>
    simp only [ClientOp.run, MqttClient.publish, MqttClient.next_packet_id]
    split
    · exact ⟨h1, h2⟩
    · constructor <;> (split_ifs <;> dsimp only <;> omega)
  | ping =>
    simp only [ClientOp.run, MqttClient.ping]
    split <;> exact ⟨h1, h2⟩
  | poll =>
    simp only [ClientOp.run, MqttClient.poll]
    rcases hq : c.event_queue <;> simp only [hq] <;> exact ⟨h1, h2⟩
  | process_data data =>
    simp only [ClientOp.run, MqttClient.process_data]
    rw [process_loop_packet_id]
    exact ⟨h1, h2⟩

theorem runOps_packet_id_wf (cfg : MqttConfig) (ops : List ClientOp) :
    1 ≤ (runOps (MqttClient.new cfg) ops).packet_id ∧
    (runOps (MqttClient.new cfg) ops).packet_id < 65536 := by
  suffices h : ∀ c : MqttClient, 1 ≤ c.packet_id → c.packet_id < 65536 →
      1 ≤ (runOps c ops).packet_id ∧ (runOps c ops).packet_id < 65536 by
    exact h _ (Nat.le_refl 1) (show (1 : Nat) < 65536 by norm_num)
  induction ops with
  | nil => exact fun c h1 h2 => ⟨h1, h2⟩
  | cons op rest ih =>
    intro c h1 h2
    have hstep := run_op_packet_id_wf c op h1 h2
    exact ih (ClientOp.run c op) hstep.1 hstep.2

/-- Claim C7: from any client built by `MqttClient::new`, after any sequence of
operations the packet-identifier counter is a nonzero 16-bit value; every
identifier returned by `subscribe`, `unsubscribe` or a QoS-above-0 `publish`
is nonzero; and the counter wraps from 0xFFFF to 1 (the returned identifier
0xFFFF is followed by identifier 1). -/
theorem packet_id_skips_zero :
    (∀ (cfg : MqttConfig) (ops : List ClientOp),
      (runOps (MqttClient.new cfg) ops).packet_id ≠ 0 ∧
      (runOps (MqttClient.new cfg) ops).packet_id < 65536) ∧
    (∀ (c : MqttClient) (topic : List Nat) (qos : QoS) (id : Nat),
      1 ≤ c.packet_id → (c.subscribe topic qos).1 = .ok id → id ≠ 0) ∧
    (∀ (c : MqttClient) (topic : List Nat) (id : Nat),
      1 ≤ c.packet_id → (c.unsubscribe topic).1 = .ok id → id ≠ 0) ∧
    (∀ (c : MqttClient) (topic payload : List Nat) (qos : QoS) (id : Nat),
      1 ≤ c.packet_id → (c.publish topic payload qos).1 = .ok (some id) → id ≠ 0) ∧
    (∀ c : MqttClient, c.packet_id = 65535 →
      c.next_packet_id = (65535, { c with packet_id := 1 })) ∧
    (∀ c : MqttClient, c.packet_id = 65535 →
      ((c.next_packet_id).2.next_packet_id).1 = 1) := by
  refine ⟨fun cfg ops => ?_, fun c topic qos id h1 hok => ?_,
    fun c topic id h1 hok => ?_, fun c topic payload qos id h1 hok => ?_,
    fun c h => ?_, fun c h => ?_⟩
  · have hwf := runOps_packet_id_wf cfg ops
    exact ⟨by omega, hwf.2⟩
  · revert hok
    simp only [MqttClient.subscribe, MqttClient.next_packet_id]
    split
    · intro hok
      simp at hok
    · intro hok
      simp only [Except.ok.injEq] at hok
      omega
  · revert hok
    simp only [MqttClient.unsubscribe, MqttClient.next_packet_id]
    split
    · intro hok
      simp at hok
    · intro hok
      simp only [Except.ok.injEq] at hok
      omega
  · revert hok
    simp only [MqttClient.publish, MqttClient.next_packet_id]
    split
    · intro hok
      simp at hok
    · split_ifs with hq hz
      · intro hok
        simp only [Except.ok.injEq, Option.some.injEq] at hok
        omega
      · intro hok
        simp only [Except.ok.injEq, Option.some.injEq] at hok
        omega
      · intro hok
        simp at hok
  · simp only [MqttClient.next_packet_id]
    rw [h]
    norm_num
  · simp only [MqttClient.next_packet_id]
    rw [h]
    norm_num

/-- Witness for C7, wrap-around at the concrete counter value 0xFFFF. -/
theorem packet_id_skips_zero_witness :
    MqttClient.next_packet_id
        { MqttClient.new MqttConfig.default with packet_id := 65535 } =
      (65535, { { MqttClient.new MqttConfig.default with packet_id := 65535 } with
        packet_id := 1 }) :=
  packet_id_skips_zero.2.2.2.2.1 _ rfl

end Mqtt

namespace Ccr

/-- Sixty-nine pairwise distinct probe events `e0..e68`. -/
def c4Event (i : Nat) : CcrEvent := .Status true (Nat.toDigits 10 i)

/-- The queue after pushing `e0..e68` onto a fresh queue of capacity 64. -/
def c4Queue : EventQueue := EventQueue.pushAll .new ((List.range 69).map c4Event)

/-- A full queue of `e0..e63`, for exercising eviction on one more push. -/
def c4FullQueue : EventQueue := EventQueue.pushAll .new ((List.range 64).map c4Event)

theorem getD_set_ne {α : Type} (l : List α) (m n : Nat) (a d : α) (h : m ≠ n) :
    (l.set m a).getD n d = l.getD n d := by
  simp [List.getD, List.getElem?_set_ne h]

theorem getD_set_self {α : Type} (l : List α) (n : Nat) (a d : α) (h : n < l.length) :
    (l.set n a).getD n d = a := by
  simp [List.getD, List.getElem?_set_self, h]

theorem push_count_le (q : EventQueue) (e : CcrEvent) (h : q.count ≤ MAX_EVENTS) :
    (q.push e).count ≤ MAX_EVENTS := by
  simp only [MAX_EVENTS] at h ⊢
  simp only [EventQueue.push, MAX_EVENTS]
  split_ifs with hf <;> (try dsimp only) <;> omega

theorem pushAll_count_le (es : List CcrEvent) :
    (EventQueue.pushAll .new es).count ≤ MAX_EVENTS := by
  suffices h : ∀ q : EventQueue, q.count ≤ MAX_EVENTS →
      (EventQueue.pushAll q es).count ≤ MAX_EVENTS from h _ (by decide)
  induction es with
  | nil => exact fun q h => h
  | cons e rest ih => exact fun q h => ih _ (push_count_le q e h)

theorem push_wf (q : EventQueue) (e : CcrEvent) (h : q.Wf) : (q.push e).Wf := by
  obtain ⟨hlen, hcnt, hhead, htail⟩ := h
  simp only [MAX_EVENTS] at hlen hcnt hhead htail
  simp only [EventQueue.Wf, EventQueue.push, MAX_EVENTS]
  split_ifs with hf <;> (try dsimp only) <;>
    exact ⟨by simp [hlen], by omega, by omega, by omega⟩

theorem push_full_shifts (q : EventQueue) (e : CcrEvent) (hwf : q.Wf)
    (hfull : q.count = MAX_EVENTS) :
    (q.push e).count = MAX_EVENTS ∧
    (∀ i, i + 1 < MAX_EVENTS → (q.push e).get i = q.get (i + 1)) ∧
    (q.push e).get (MAX_EVENTS - 1) = some e := by
  obtain ⟨hlen, hcnt, hhead, htail⟩ := hwf
  simp only [MAX_EVENTS] at hlen hcnt hhead htail hfull
  have htl : q.tail = q.head := by omega
  simp only [EventQueue.push, EventQueue.get, MAX_EVENTS, if_pos hfull]
  rw [htl, List.set_set]
  refine ⟨by omega, ?_, ?_⟩
  · intro i hi
    rw [if_neg (by omega), if_neg (by omega)]
    have hidx : ((q.head + 1) % 64 + i) % 64 = (q.head + (i + 1)) % 64 := by omega
    rw [hidx]
    exact getD_set_ne _ _ _ _ _ (by omega)
  · rw [if_neg (by omega)]
    have hidx : ((q.head + 1) % 64 + (64 - 1)) % 64 = q.head := by omega
    rw [hidx]
    exact getD_set_self _ _ _ _ (by omega)

/-- Claim C4: pushing e0..e68 onto a fresh capacity-64 queue leaves exactly
e5..e68 oldest-to-newest with `len` 64 and `get 0 = e5`; the count never
exceeds 64 over any push sequence from a fresh queue; and a push onto a full
well-formed queue evicts only the single oldest entry before inserting the new
event at the logical end. -/
theorem event_queue_eviction :
    c4Queue.len = 64 ∧
    c4Queue.get 0 = some (c4Event 5) ∧
    (∀ i < 64, c4Queue.get i = some (c4Event (i + 5))) ∧
    (∀ es : List CcrEvent, (EventQueue.pushAll .new es).count ≤ MAX_EVENTS) ∧
    (∀ (q : EventQueue) (e : CcrEvent), q.Wf → q.count = MAX_EVENTS →
      (q.push e).count = MAX_EVENTS ∧
      (∀ i, i + 1 < MAX_EVENTS → (q.push e).get i = q.get (i + 1)) ∧
      (q.push e).get (MAX_EVENTS - 1) = some e) :=
  ⟨by decide, by decide, by decide, pushAll_count_le, push_full_shifts⟩

/-- Witness for C4: pushing one more event onto a concrete full queue places it
at the newest logical position. -/
theorem event_queue_eviction_witness :
    (c4FullQueue.push (c4Event 99)).get (MAX_EVENTS - 1) = some (c4Event 99) :=
  (event_queue_eviction.2.2.2.2 c4FullQueue (c4Event 99) (by decide) (by decide)).2.2

end Ccr

namespace Ccr

/-- A payload whose `session_id` value is 199 ASCII bytes followed by the
two-byte character `é`: 201 bytes, with byte 200 inside the final character. -/
def c8PanicInput : List Char :=
  "\x7b\"type\":\"stop\",\"session_id\":\"".data ++ List.replicate 199 'a' ++ ['é', '"', '\x7d']

/-- A payload whose `session_id` value contains the escape `\"`. -/
def c9Input : List Char := "\x7b\"type\":\"stop\",\"session_id\":\"a\\\"b\"\x7d".data

/-- Claim C8, against the code as written: the value of `session_id` in
`c8PanicInput` is 201 bytes long, `> MAX_TEXT_LEN = 200`, and the truncating
slice `&value[..MAX_TEXT_LEN]` falls inside the final two-byte character, so
`from_json` panics (the `.error ()` of the embedding) instead of truncating. -/
theorem from_json_truncation_panics :
    CcrEvent.from_json c8PanicInput = .error () ∧
    get_json_string c8PanicInput "session_id".data = .error () ∧
    utf8ByteLen (List.replicate 199 'a' ++ ['é']) = 201 ∧
    MAX_TEXT_LEN = 200 :=
  ⟨rfl, rfl, rfl, rfl⟩

/-- Counterexample for C9 as stated: in `c9Input` the field value is `a\"b`,
but the stored field is `a\` (the extraction stops at the quote of `\"`), not
the unescaped `a"b`. -/
theorem from_json_escaped_quote :
    CcrEvent.from_json c9Input = .ok (some (.Stop ['a', '\\'])) ∧
    ¬ CcrEvent.from_json c9Input = .ok (some (.Stop ['a', '"', 'b'])) := by
  refine ⟨rfl, fun h => ?_⟩
  have h2 := (show CcrEvent.from_json c9Input = .ok (some (.Stop ['a', '\\'])) from
    rfl).symm.trans h
  simp at h2

theorem takeUntilQuote_no_quote : ∀ s v : List Char,
    takeUntilQuote s = some v → '"' ∉ v := by
  intro s
  induction s with
  | nil => intro v h; simp [takeUntilQuote] at h
  | cons c rest ih =>
    intro v h
    simp only [takeUntilQuote] at h
    split_ifs at h with hc
    · cases h
      simp
    · split at h
      · rename_i v' heq
        cases h
        simp only [List.mem_cons]
        rintro (h1 | h2)
        · exact hc h1.symm
        · exact ih v' heq h2
      · cases h

theorem byteTruncate_mem : ∀ (s : List Char) (n : Nat) (v : List Char),
    byteTruncate n s = some v → ∀ c ∈ v, c ∈ s := by
  intro s
  induction s with
  | nil =>
    intro n v h c hc
    simp only [byteTruncate] at h
    split_ifs at h
    · cases h; simp at hc
  | cons a rest ih =>
    intro n v h c hc
    simp only [byteTruncate] at h
    split_ifs at h with h0 hw
    · cases h; simp at hc
    · split at h
      · rename_i v' heq
        cases h
        rcases List.mem_cons.mp hc with rfl | hm
        · exact List.mem_cons_self _ _
        · exact List.mem_cons_of_mem _ (ih _ _ heq _ hm)
      · cases h

theorem unescape_no_quote : ∀ s : List Char, '"' ∉ s → '"' ∉ unescape_json s := by
  intro s
  induction s using unescape_json.induct <;> intro hq <;> simp_all [unescape_json]

theorem get_json_string_no_quote (text key v : List Char)
    (h : get_json_string text key = .ok (some v)) : '"' ∉ v := by
  revert h
  simp only [get_json_string]
  split
  · intro h; simp at h
  · split
    · split
      · intro h; simp at h
      · rename_i value heq
        split_ifs with hlen
        · split
          · intro h; simp at h
          · rename_i truncated heq2
            intro h
            simp only [Except.ok.injEq, Option.some.injEq] at h
            subst h
            exact unescape_no_quote _
              (fun hm => takeUntilQuote_no_quote _ _ heq (byteTruncate_mem _ _ _ heq2 _ hm))
        · intro h
          simp only [Except.ok.injEq, Option.some.injEq] at h
          subst h
          exact unescape_no_quote _ (takeUntilQuote_no_quote _ _ heq)
    · intro h; simp at h

/-- Claim C9 (amended): `unescape_json` maps the six escapes to the characters
they denote and passes any other escaped character through with its backslash;
but an escaped quote never reaches the unescaper end-to-end: field extraction
stops at the first quote character, so a stored field produced by
`get_json_string` never contains a quote at all. -/
theorem unescape_behavior :
    (∀ t, unescape_json ('\\' :: 'n' :: t) = '\n' :: unescape_json t) ∧
    (∀ t, unescape_json ('\\' :: 'r' :: t) = '\r' :: unescape_json t) ∧
    (∀ t, unescape_json ('\\' :: 't' :: t) = '\t' :: unescape_json t) ∧
    (∀ t, unescape_json ('\\' :: '"' :: t) = '"' :: unescape_json t) ∧
    (∀ t, unescape_json ('\\' :: '\\' :: t) = '\\' :: unescape_json t) ∧
    (∀ t, unescape_json ('\\' :: '/' :: t) = '/' :: unescape_json t) ∧
    (∀ (c : Char) (t : List Char), c ∉ (['n', 'r', 't', '"', '\\', '/'] : List Char) →
      unescape_json ('\\' :: c :: t) = '\\' :: c :: unescape_json t) ∧
    (∀ (c : Char) (t : List Char), c ≠ '\\' →
      unescape_json (c :: t) = c :: unescape_json t) ∧
    (∀ text key v : List Char, get_json_string text key = .ok (some v) → '"' ∉ v) := by
  refine ⟨fun t => rfl, fun t => rfl, fun t => rfl, fun t => rfl, fun t => rfl,
    fun t => rfl, fun c t hc => ?_, fun c t hc => ?_, get_json_string_no_quote⟩
  · rw [unescape_json.eq_def]
    split
    · simp_all
    · rename_i rest heq
      injection heq with h1 h2
      subst h2
      split <;> simp_all
    · rename_i hne heq
      injection heq with h1 h2
      exact absurd h1.symm hne
  · rw [unescape_json.eq_def]
    split
    · simp_all
    · rename_i rest heq
      injection heq with h1 h2
      exact absurd h1 hc
    · rename_i hne heq
      injection heq with h1 h2
      subst h1
      subst h2
      rfl

/-- Witness for C9 (amended): the stored `session_id` of `c9Input` is
quote-free. -/
theorem unescape_behavior_witness : '"' ∉ (['a', '\\'] : List Char) :=
  unescape_behavior.2.2.2.2.2.2.2.2 c9Input "session_id".data ['a', '\\'] rfl

end Ccr
